import Mathlib

/-!
# simple-gnfs: the driver `gnfs.cpp`

A shallow embedding of the functions of `src/gnfs.cpp` and of the final
phase of its `main`, together with the properties of them that are settled
here.

Conventions of the embedding.

* `NTL::ZZ` is `Int`; `NTL::ZZX` is the list of its coefficients, constant
  term first. An `int` is an `Int` kept within 32 bits: arithmetic on it and
  conversion to it reduce modulo `2^32` (`wrap32`).
* In `calc_B` and `calc_U` the `NTL::RR` and `double` values are real numbers
  and their operations are taken exactly (`Real.log`, `Real.exp`,
  `Real.sqrt`, `Real.rpow`); an operation that NTL refuses (logarithm of a
  non-positive number, square root or power of a negative number) makes the
  function return `none`.
* In the computation of `target.digits` the `double` values are the rational
  numbers they stand for, and division rounds as IEEE 754 prescribes.
* An input stream is the sequence of values its extractions deliver.
-/

namespace GNFS

/-! ## Data model -/

/-- Modelled from the spec: the `Polynomial` record of `gnfs.hpp` (not among
the sources), with its three fields `d` (an `int`), `f` (an `NTL::ZZX`, the
coefficient list, constant term first) and `m` (an `NTL::ZZ`). -/
structure Polynomial where
  d : Int
  f : List Int
  m : Int
deriving DecidableEq, Repr

/-- Modelled from the spec: the `FactorBase` record of `factor_base.hpp` (not
among the sources): the rational primes, the algebraic pairs `(p, r)` and
the quadratic-character pairs `(q, s)`. -/
structure FactorBase where
  RFB : List Int
  AFB : List (Int × Int)
  QCB : List (Int × Int)
deriving DecidableEq, Repr

/-- Modelled from the spec: the dimension of an exponent-parity vector,
`|RFB| + |AFB| + 1 (sign) + |QCB|`; the code that builds the vectors
(`linear_algebra`) is not among the sources. -/
def exponent_vector_columns (fb : FactorBase) : Int :=
  (fb.RFB.length : Int) + (fb.AFB.length : Int) + 1 + (fb.QCB.length : Int)

/-- The coefficient list without its leading (highest-degree) zeros, as
`NTL::ZZX` keeps it. -/
def normalize (f : List Int) : List Int :=
  (f.reverse.dropWhile (fun c => c == 0)).reverse

/-- `NTL::deg`: the degree of a polynomial, `-1` for the zero polynomial. -/
def deg (f : List Int) : Int :=
  ((normalize f).length : Int) - 1

/-- `NTL::GCD` on `ZZ`: the non-negative greatest common divisor. -/
def GCD (a b : Int) : Int :=
  (Int.gcd a b : Int)

/-- A value of the C type `int` (32 bits, two's complement): the
representative of `x` modulo `2^32` in `[-2^31, 2^31)`. -/
def wrap32 (x : Int) : Int :=
  (x + 2147483648) % 4294967296 - 2147483648

/-! ## `polynomial_read` -/

/-- What one formatted extraction finds in the stream: a value, text that
does not parse as one, or the end of the file. -/
inductive Found (α : Type) where
  | value (v : α)
  | garbage
  | nothing
deriving DecidableEq, Repr

/-- The file `polynomial.gnfs` as `polynomial_read` sees it: whether it could
be opened, and what each of the three extractions finds in it. -/
structure PolynomialFile where
  opened : Bool
  dText : Found Int
  fText : Found (List Int)
  mText : Found Int
deriving DecidableEq, Repr

/-- `file >> polynomial.d` for an `int`: on a stream that has already failed,
or is at its end, nothing is stored; text that does not parse stores `0`, a
number outside the range of `int` stores the nearest bound; all of these
leave the stream failed. The result is the stream's state and the value now
in the variable. -/
def read_int (good : Bool) (text : Found Int) (old : Int) : Bool × Int :=
  if good then
    match text with
    | Found.value v =>
      if v > 2147483647 then (false, 2147483647)
      else if v < -2147483648 then (false, -2147483648)
      else (true, v)
    | Found.garbage => (false, 0)
    | Found.nothing => (false, old)
  else (false, old)

/-- `file >> x` for an NTL value (`ZZX` or `ZZ`): a failed extraction leaves
the variable as it was and the stream failed. -/
def read_NTL {α : Type} (good : Bool) (text : Found α) (old : α) : Bool × α :=
  if good then
    match text with
    | Found.value v => (true, v)
    | Found.garbage => (false, old)
    | Found.nothing => (false, old)
  else (false, old)

/-- A polynomial as read from the stream, in `NTL::ZZX`'s normal form. -/
def Found.normalized : Found (List Int) → Found (List Int)
  | Found.value v => Found.value (normalize v)
  | Found.garbage => Found.garbage
  | Found.nothing => Found.nothing

/-- `polynomial_read`: the three extractions, then the validity test. The
result is the returned `bool` and the polynomial as the call leaves it. -/
def polynomial_read (file : PolynomialFile) (polynomial : Polynomial) :
    Bool × Polynomial :=
  let rd := read_int file.opened file.dText polynomial.d
  let rf := read_NTL rd.1 (Found.normalized file.fText) polynomial.f
  let rm := read_NTL rf.1 file.mText polynomial.m
  let p : Polynomial := { d := rd.2, f := rf.2, m := rm.2 }
  if p.d > 0 ∧ deg p.f > 0 ∧ p.m > 0 then (true, p) else (false, p)

/-! ## `extract_little_factors` -/

/-- The file of primes as `extract_little_factors` sees it: the integers it
holds, in order, and whether white space (a final newline) follows the last
of them. The file is taken to exist and to hold nothing but integers. -/
structure PrimesFile where
  primes : List Int
  trailing : Bool
deriving DecidableEq, Repr

/-- The body of the loop of `extract_little_factors` on `n`:
`if(n % prime == 0) n /= prime;` (NTL rounds the quotient down and gives the
remainder the sign of the divisor). -/
def divide_out (n prime : Int) : Int :=
  if Int.fmod n prime = 0 then Int.fdiv n prime else n

/-- The `while` loop of `extract_little_factors`, entered with `prime`
already read, `eof` the stream's end-of-file flag and `rest` the integers
not yet read. Reading the last integer of a file without trailing white
space raises the flag at once; reading past the end raises it and leaves
`prime` as it was. `none` is NTL's division-by-zero error. -/
def extract_loop (trailing : Bool) : List Int → Int → Int → Bool → Option Int
  | rest, n, prime, eof =>
    if !eof && decide (prime < 1000) then
      if prime = 0 then none
      else
        let n1 := divide_out n prime
        match rest with
        | [] => some n1
        | p :: rest1 => extract_loop trailing rest1 n1 p (rest1.isEmpty && !trailing)
    else some n

/-- `extract_little_factors`: the value returned (and left in `n`). -/
def extract_little_factors (n : Int) (file : PrimesFile) : Option Int :=
  match file.primes with
  | [] => some n
  | p :: rest => extract_loop file.trailing rest n p (rest.isEmpty && !file.trailing)

/-! ## `main`: relation count and final factors -/

/-- The value `main` gives `pairs_needed`: `v = target.digits`,
`u = polynomial.d * target.t`, `pairs_needed = target.t + u + v + 2`, every
operation on `int`. -/
def pairs_needed (t d digits : Int) : Int :=
  let v := digits
  let u := wrap32 (d * t)
  wrap32 (wrap32 (wrap32 (t + u) + v) + 2)

/-- The two values `main` prints on its last two `factor:` lines,
`GCD(xZ-yZ, target.n)` and `GCD(xZ+yZ, target.n)`. -/
def main_factors (n xZ yZ : Int) : Int × Int :=
  (GCD (xZ - yZ) n, GCD (xZ + yZ) n)

/-! ## Real arithmetic (`NTL::RR`) -/

/-- `NTL::log`: refused for an argument that is not positive. -/
noncomputable def RR_log (x : ℝ) : Option ℝ :=
  if 0 < x then some (Real.log x) else none

/-- `NTL::pow` on `RR`: refused for a negative base; `x^0 = 1`, `0^y = 0`
for `y ≠ 0`, and `exp (y * log x)` for `x > 0`, which is `Real.rpow`. -/
noncomputable def RR_pow (x y : ℝ) : Option ℝ :=
  if x < 0 then none else some (x ^ y)

/-- `NTL::sqrt` on `RR`: refused for a negative argument. -/
noncomputable def RR_sqrt (x : ℝ) : Option ℝ :=
  if x < 0 then none else some (Real.sqrt x)

/-- `NTL::to_int` on `RR`, which is `int(to_long(x))`: the integer part of
`x` (rounded down; on the positive values it is applied to here this is
truncation), of which an `int` keeps the low 32 bits. -/
noncomputable def to_int (x : ℝ) : Int :=
  wrap32 ⌊x⌋

/-! ## `calc_B` and `calc_U` -/

/-- `calc_B`: `10 * to_int(exp(A * B * C))`, with `A = (8/9)^(1/3)`,
`B = (ln n)^(1/3)` and `C = (ln ln n)^(2/3)`; the product by `10` is an
`int` multiplication and the result an `int`. -/
noncomputable def calc_B (n : Int) : Option Int := do
  let lnn ← RR_log (n : ℝ)
  let lnlnn ← RR_log lnn
  let A ← RR_pow ((8 : ℝ) / 9) ((1 : ℝ) / 3)
  let B ← RR_pow lnn ((1 : ℝ) / 3)
  let C ← RR_pow lnlnn ((2 : ℝ) / 3)
  pure (wrap32 (10 * to_int (Real.exp (A * B * C))))

/-- `calc_U`: `to_int(exp(A * (B + sqrt(C + D))))` with `A = (1 + e)/2`,
`e = 0`, `B = d * lnd`, `C = (d * lnd) * (d * lnd)` and
`D = 4 * lnd * lnlnn1d`; the result is an `int`. -/
noncomputable def calc_U (n : Int) (d : Int) : Option Int := do
  let lnd ← RR_log (d : ℝ)
  let n1d ← RR_pow (n : ℝ) ((1 : ℝ) / (d : ℝ))
  let lnn1d ← RR_log n1d
  let lnlnn1d ← RR_log lnn1d
  let e : ℝ := 0
  let A : ℝ := (1 + e) / 2
  let B : ℝ := (d : ℝ) * lnd
  let C : ℝ := ((d : ℝ) * lnd) * ((d : ℝ) * lnd)
  let D : ℝ := 4 * lnd * lnlnn1d
  let root ← RR_sqrt (C + D)
  pure (to_int (Real.exp (A * (B + root))))

/-- The argument of `exp` in `calc_B`, `A * B * C`, once the three powers
are defined. -/
noncomputable def B_exponent (n : Int) : ℝ :=
  ((8 : ℝ) / 9) ^ ((1 : ℝ) / 3) * (Real.log (n : ℝ)) ^ ((1 : ℝ) / 3) *
    (Real.log (Real.log (n : ℝ))) ^ ((2 : ℝ) / 3)

/-- An input of 116 decimal digits, `2^384`. -/
def two_pow_384 : Int :=
  2 ^ 384

/-- The closed form the specification gives for `B`, with `K = 10`:
`K * exp((8/9)^(1/3) * (ln n)^(1/3) * (ln ln n)^(2/3))`. -/
noncomputable def B_closed_form (n : Int) : ℝ :=
  10 * Real.exp (((8 : ℝ) / 9) ^ ((1 : ℝ) / 3) * (Real.log (n : ℝ)) ^ ((1 : ℝ) / 3) *
    (Real.log (Real.log (n : ℝ))) ^ ((2 : ℝ) / 3))

/-- The argument of `sqrt` in `calc_U`, `C + D`, once the logarithms are
defined. -/
noncomputable def U_radicand (n : Int) (d : Int) : ℝ :=
  ((d : ℝ) * Real.log (d : ℝ)) * ((d : ℝ) * Real.log (d : ℝ)) +
    4 * Real.log (d : ℝ) * Real.log (Real.log ((n : ℝ) ^ ((1 : ℝ) / (d : ℝ))))

/-- The argument of `exp` in `calc_U`, `A * (B + sqrt(C + D))`, once the
square root is defined. -/
noncomputable def U_exponent (n : Int) (d : Int) : ℝ :=
  (1 + 0) / 2 * ((d : ℝ) * Real.log (d : ℝ) + Real.sqrt (U_radicand n d))

/-- The closed form the specification gives for `U`:
`exp(1/2 * (d ln d + sqrt((d ln d)^2 + 4 ln(n^(1/d)) ln ln(n^(1/d)))))`. -/
noncomputable def U_closed_form (n : Int) (d : Int) : ℝ :=
  Real.exp ((1 : ℝ) / 2 * ((d : ℝ) * Real.log (d : ℝ) +
    Real.sqrt (((d : ℝ) * Real.log (d : ℝ)) ^ 2 +
      4 * Real.log ((n : ℝ) ^ ((1 : ℝ) / (d : ℝ))) *
        Real.log (Real.log ((n : ℝ) ^ ((1 : ℝ) / (d : ℝ)))))))

/-! ## `double` arithmetic and `target.digits` -/

/-- Rounding to the nearest integer, a tie going to the even neighbour. -/
def round_half_even {R : Type} [LinearOrderedField R] [FloorRing R] (m : R) : Int :=
  if m - (⌊m⌋ : R) < 1 / 2 then ⌊m⌋
  else if 1 / 2 < m - (⌊m⌋ : R) then ⌊m⌋ + 1
  else if ⌊m⌋ % 2 = 0 then ⌊m⌋ else ⌊m⌋ + 1

/-- The `double` nearest to `x` (IEEE 754 binary64, round to nearest, ties to
even): with `2^e ≤ |x| < 2^(e+1)` the 53-bit significand `|x| / 2^(e-52)` is
rounded to an integer. Exponent range (overflow, subnormals) is not
modelled. -/
def round_double {R : Type} [LinearOrderedField R] [FloorRing R] (x : R) : ℚ :=
  if 0 < x then
    (round_half_even (x / (2 : R) ^ (Int.log 2 x - 52)) : ℚ) * (2 : ℚ) ^ (Int.log 2 x - 52)
  else if x < 0 then
    -((round_half_even (-x / (2 : R) ^ (Int.log 2 (-x) - 52)) : ℚ) *
      (2 : ℚ) ^ (Int.log 2 (-x) - 52))
  else 0

/-- The `log` of the C library on a positive `double`, and `NTL::log` on a
positive `ZZ` (which for `n < 2^53` is the former on `n`): taken to be
correctly rounded, i.e. the `double` nearest to the logarithm. -/
noncomputable def double_log (x : ℝ) : ℚ :=
  round_double (Real.log x)

/-- Division of two `double`s: the exact quotient, rounded (IEEE 754). -/
def double_div (x y : ℚ) : ℚ :=
  round_double (x / y)

/-- The C cast `(int)` of a `double`: truncation toward zero. -/
def cast_int (x : ℚ) : Int :=
  if 0 ≤ x then ⌊x⌋ else ⌈x⌉

/-- The value `main` stores in `target.digits`:
`(int)(log(target.n) / log(10)) + 1`, where both logarithms and their
quotient are `double`s; `log` of a `ZZ` is refused for `n ≤ 0`. -/
noncomputable def main_digits (n : Int) : Option Int :=
  if 0 < n then
    some (cast_int (double_div (double_log (n : ℝ)) (double_log 10)) + 1)
  else none

/-- The formula `floor(ln n / ln 10) + 1` in exact real arithmetic. -/
noncomputable def digits_formula (n : Int) : Int :=
  ⌊Real.log (n : ℝ) / Real.log 10⌋ + 1

/-! ## Theorems -/

/-! ### The final factors -/

theorem GCD_nonneg (a b : Int) : 0 ≤ GCD a b :=
  Int.ofNat_nonneg _

theorem GCD_dvd_right (a b : Int) : GCD a b ∣ b :=
  Int.gcd_dvd_right

/-- C6: for every target `n` (in particular every `n ≥ 1`) and all integers
`xZ`, `yZ` handed back by the square-root stage, both values printed on the
final `factor:` lines, `GCD(xZ - yZ, n)` and `GCD(xZ + yZ, n)`, are
non-negative and divide `n`. -/
theorem main_factors_nonneg_dvd (n xZ yZ : Int) :
    0 ≤ (main_factors n xZ yZ).1 ∧ (main_factors n xZ yZ).1 ∣ n ∧
    0 ≤ (main_factors n xZ yZ).2 ∧ (main_factors n xZ yZ).2 ∣ n :=
  ⟨GCD_nonneg _ _, GCD_dvd_right _ _, GCD_nonneg _ _, GCD_dvd_right _ _⟩

theorem GCD_prime_trivial (p : ℕ) (hp : p.Prime) (a : Int) :
    GCD a p = 1 ∨ GCD a p = p := by
  unfold GCD
  have h : Int.gcd a p ∣ p := by
    have := Int.gcd_dvd_right (a := a) (b := (p : Int))
    exact Int.natCast_dvd_natCast.mp this
  rcases (Nat.dvd_prime hp).mp h with h1 | h1
  · left; rw [h1]; rfl
  · right; rw [h1]

/-- C7: for every prime target `n` and all integers `xZ`, `yZ` handed back by
the square-root stage, each of the two reported factors `GCD(xZ - yZ, n)` and
`GCD(xZ + yZ, n)` is trivial: it is `1` or `n`. -/
theorem main_factors_prime_trivial (p : ℕ) (hp : p.Prime) (xZ yZ : Int) :
    ((main_factors p xZ yZ).1 = 1 ∨ (main_factors p xZ yZ).1 = p) ∧
    ((main_factors p xZ yZ).2 = 1 ∨ (main_factors p xZ yZ).2 = p) :=
  ⟨GCD_prime_trivial p hp _, GCD_prime_trivial p hp _⟩

theorem main_factors_prime_trivial_witness :
    Nat.Prime 7 ∧
    ((main_factors (7 : ℕ) 10 3).1 = 1 ∨ (main_factors (7 : ℕ) 10 3).1 = (7 : ℕ)) ∧
    ((main_factors (7 : ℕ) 10 3).2 = 1 ∨ (main_factors (7 : ℕ) 10 3).2 = (7 : ℕ)) :=
  ⟨by norm_num, main_factors_prime_trivial 7 (by norm_num) 10 3⟩

/-! ### `polynomial_read` -/

theorem normalize_idem (f : List Int) : normalize (normalize f) = normalize f := by
  unfold normalize
  rw [List.reverse_reverse, List.dropWhile_idempotent]

theorem deg_normalize (f : List Int) : deg (normalize f) = deg f := by
  unfold deg
  rw [normalize_idem]

theorem read_NTL_of_true {α : Type} (good : Bool) (text : Found α) (old : α)
    (h : (read_NTL good text old).1 = true) :
    good = true ∧ ∃ v, text = Found.value v ∧ (read_NTL good text old).2 = v := by
  unfold read_NTL at h ⊢
  cases good <;> cases text <;> simp at h ⊢

theorem read_NTL_of_false {α : Type} (good : Bool) (text : Found α) (old : α)
    (h : (read_NTL good text old).1 = false) :
    (read_NTL good text old).2 = old := by
  unfold read_NTL at h ⊢
  cases good <;> cases text <;> simp at h ⊢

theorem read_int_of_true (good : Bool) (text : Found Int) (old : Int)
    (h : (read_int good text old).1 = true) :
    good = true ∧ ∃ v, text = Found.value v ∧ v ≤ 2147483647 ∧ -2147483648 ≤ v ∧
      (read_int good text old).2 = v := by
  cases good
  · simp [read_int] at h
  · cases text with
    | value v =>
      by_cases h1 : v > 2147483647
      · simp [read_int, h1] at h
      · by_cases h2 : v < -2147483648
        · simp [read_int, h1, h2] at h
        · refine ⟨rfl, v, rfl, by omega, by omega, ?_⟩
          simp [read_int, h1, h2]
    | garbage => simp [read_int] at h
    | nothing => simp [read_int] at h

theorem normalized_eq_value (t : Found (List Int)) (g : List Int)
    (h : Found.normalized t = Found.value g) : ∃ f, t = Found.value f ∧ g = normalize f := by
  cases t with
  | value v =>
    simp only [Found.normalized, Found.value.injEq] at h
    exact ⟨v, rfl, h.symm⟩
  | garbage => simp [Found.normalized] at h
  | nothing => simp [Found.normalized] at h

theorem polynomial_read_fst (file : PolynomialFile) (polynomial : Polynomial) :
    (polynomial_read file polynomial).1 = true ↔
      0 < (polynomial_read file polynomial).2.d ∧
      0 < deg (polynomial_read file polynomial).2.f ∧
      0 < (polynomial_read file polynomial).2.m := by
  unfold polynomial_read
  simp only [gt_iff_lt]
  split_ifs with h
  · exact ⟨fun _ => h, fun _ => rfl⟩
  · exact ⟨fun h1 => by simp at h1, fun h1 => absurd h1 h⟩

theorem polynomial_read_snd (file : PolynomialFile) (polynomial : Polynomial) :
    (polynomial_read file polynomial).2 =
      { d := (read_int file.opened file.dText polynomial.d).2,
        f := (read_NTL (read_int file.opened file.dText polynomial.d).1
          (Found.normalized file.fText) polynomial.f).2,
        m := (read_NTL (read_NTL (read_int file.opened file.dText polynomial.d).1
          (Found.normalized file.fText) polynomial.f).1 file.mText polynomial.m).2 } := by
  unfold polynomial_read
  simp only [gt_iff_lt]
  split_ifs <;> rfl

theorem polynomial_read_of_values (file : PolynomialFile) (polynomial : Polynomial)
    (d : Int) (f : List Int) (m : Int)
    (ho : file.opened = true) (hd : file.dText = Found.value d)
    (hf : file.fText = Found.value f) (hm1 : file.mText = Found.value m)
    (hr1 : d ≤ 2147483647) (hr2 : -2147483648 ≤ d) :
    polynomial_read file polynomial =
      (decide (0 < d ∧ 0 < deg f ∧ 0 < m), { d := d, f := normalize f, m := m }) := by
  have h1 : ¬ d > 2147483647 := by omega
  have h2 : ¬ d < -2147483648 := by omega
  unfold polynomial_read
  simp only [ho, hd, hf, hm1, read_int, read_NTL, Found.normalized, if_true, h1, h2, if_false,
    deg_normalize, gt_iff_lt]
  split_ifs with h
  · simp [h]
  · simp [h]

/-- C8 (the claim as stated fails): with no file to open nothing is read, and
on a polynomial that already holds valid values (`d = 3`,
`f = 1 + 2x + 3x^2 + x^3`, `m = 7`) `polynomial_read` returns `true`. -/
theorem polynomial_read_missing_file_accepted :
    polynomial_read
      { opened := false, dText := Found.nothing, fText := Found.nothing,
        mText := Found.nothing }
      { d := 3, f := [1, 2, 3, 1], m := 7 } = (true, { d := 3, f := [1, 2, 3, 1], m := 7 }) := by
  decide

/-- C8 (amended): called on a polynomial whose `m` is not positive (`main`
creates it with `m = 0`), `polynomial_read` returns `true` if and only if the
file opens and the three values read from it, `d` (within the range of
`int`), `f` and `m`, satisfy `d > 0`, `deg f > 0` and `m > 0`, and it then
leaves exactly these values in the polynomial; in every other case,
including a missing or unparsable file, it returns `false`. -/
theorem polynomial_read_iff (file : PolynomialFile) (polynomial : Polynomial)
    (hm : polynomial.m ≤ 0) :
    ((polynomial_read file polynomial).1 = true ↔
      ∃ d f m, file.opened = true ∧ file.dText = Found.value d ∧
        file.fText = Found.value f ∧ file.mText = Found.value m ∧
        d ≤ 2147483647 ∧ 0 < d ∧ 0 < deg f ∧ 0 < m) ∧
    (∀ d f m, file.opened = true → file.dText = Found.value d →
        file.fText = Found.value f → file.mText = Found.value m →
        d ≤ 2147483647 → 0 < d → 0 < deg f → 0 < m →
        polynomial_read file polynomial = (true, { d := d, f := normalize f, m := m })) := by
  have key : ∀ d f m, file.opened = true → file.dText = Found.value d →
      file.fText = Found.value f → file.mText = Found.value m →
      d ≤ 2147483647 → 0 < d → 0 < deg f → 0 < m →
      polynomial_read file polynomial = (true, { d := d, f := normalize f, m := m }) := by
    intro d f m ho hd hf hm1 hr hd0 hf0 hm0
    rw [polynomial_read_of_values file polynomial d f m ho hd hf hm1 hr (by omega)]
    simp [hd0, hf0, hm0]
  refine ⟨⟨?_, ?_⟩, key⟩
  · intro h
    rw [polynomial_read_fst, polynomial_read_snd] at h
    obtain ⟨hd0, hf0, hm0⟩ := h
    simp only at hd0 hf0 hm0
    -- the extraction of `m` succeeded, since it left a positive value
    have hmok : (read_NTL (read_NTL (read_int file.opened file.dText polynomial.d).1
        (Found.normalized file.fText) polynomial.f).1 file.mText polynomial.m).1 = true := by
      by_contra hne
      have hfalse := read_NTL_of_false _ _ _ (Bool.eq_false_iff.mpr hne)
      rw [hfalse] at hm0
      omega
    obtain ⟨hfok, m, hmT, hmv⟩ := read_NTL_of_true _ _ _ hmok
    obtain ⟨hdok, g, hfT, hfv⟩ := read_NTL_of_true _ _ _ hfok
    obtain ⟨ho, d, hdT, hr1, hr2, hdv⟩ := read_int_of_true _ _ _ hdok
    obtain ⟨f, hfT1, hg⟩ := normalized_eq_value _ _ hfT
    rw [hdv] at hd0
    rw [hfv, hg, deg_normalize] at hf0
    rw [hmv] at hm0
    exact ⟨d, f, m, ho, hdT, hfT1, hmT, hr1, hd0, hf0, hm0⟩
  · rintro ⟨d, f, m, ho, hd, hf, hm1, hr, hd0, hf0, hm0⟩
    rw [key d f m ho hd hf hm1 hr hd0 hf0 hm0]

theorem polynomial_read_iff_witness :
    polynomial_read
      { opened := true, dText := Found.value 3, fText := Found.value [1, 2, 3, 1],
        mText := Found.value 7 }
      { d := 3, f := [], m := 0 } = (true, { d := 3, f := normalize [1, 2, 3, 1], m := 7 }) :=
  (polynomial_read_iff
    { opened := true, dText := Found.value 3, fText := Found.value [1, 2, 3, 1],
      mText := Found.value 7 }
    { d := 3, f := [], m := 0 } (by decide)).2 3 [1, 2, 3, 1] 7 rfl rfl rfl rfl
    (by decide) (by decide) (by decide) (by decide)

/-- With the polynomial as `main` creates it (`d = 3`, `f` and `m` zero) and
no file to open, nothing is read and `polynomial_read` returns `false`. -/
theorem polynomial_read_missing_file (dText : Found Int) (fText : Found (List Int))
    (mText : Found Int) :
    polynomial_read { opened := false, dText := dText, fText := fText, mText := mText }
      { d := 3, f := [], m := 0 } = (false, { d := 3, f := [], m := 0 }) := by
  simp [polynomial_read, read_int, read_NTL]

/-! ### `extract_little_factors` -/

theorem divide_out_dvd (n prime : Int) : divide_out n prime ∣ n := by
  unfold divide_out
  split_ifs with h
  · have e := Int.fmod_add_fdiv n prime
    rw [h, zero_add] at e
    exact ⟨prime, by rw [mul_comm]; exact e.symm⟩
  · exact dvd_rfl

theorem extract_loop_dvd (trailing : Bool) (rest : List Int) :
    ∀ (n prime : Int) (eof : Bool) (r : Int),
      extract_loop trailing rest n prime eof = some r → r ∣ n := by
  induction rest with
  | nil =>
    intro n prime eof r h
    unfold extract_loop at h
    split_ifs at h with h1 h2
    · simp only [Option.some.injEq] at h
      rw [← h]
      exact divide_out_dvd n prime
    · simp only [Option.some.injEq] at h
      rw [← h]
  | cons p rest1 ih =>
    intro n prime eof r h
    unfold extract_loop at h
    split_ifs at h with h1 h2
    · exact dvd_trans (ih _ _ _ _ h) (divide_out_dvd n prime)
    · simp only [Option.some.injEq] at h
      rw [← h]

/-- The value `extract_little_factors` returns divides the `n` it was given. -/
theorem extract_little_factors_dvd (n : Int) (file : PrimesFile) (r : Int)
    (h : extract_little_factors n file = some r) : r ∣ n := by
  unfold extract_little_factors at h
  split at h
  · simp only [Option.some.injEq] at h
    rw [← h]
  · exact extract_loop_dvd _ _ _ _ _ _ h

/-- C10 (the code at a failing input): for `n = 4` and the primes file
`2 3 5 7` (newline-terminated) `extract_little_factors` divides by `2` once
and returns `2`, which the listed prime `2 < 1000` still divides. -/
theorem extract_little_factors_leaves_factor :
    extract_little_factors 4 { primes := [2, 3, 5, 7], trailing := true } = some 2 ∧
    (2 : Int) ∈ [2, 3, 5, 7] ∧ (2 : Int) < 1000 ∧ (2 : Int) ∣ 2 := by
  refine ⟨by decide, by decide, by decide, by decide⟩

/-! ### `pairs_needed` -/

theorem wrap32_of_range (x : Int) (h0 : -2147483648 ≤ x) (h1 : x < 2147483648) :
    wrap32 x = x := by
  unfold wrap32
  omega

theorem wrap32_of_range_above (x : Int) (h0 : 2147483648 ≤ x) (h1 : x < 6442450944) :
    wrap32 x = x - 4294967296 := by
  unfold wrap32
  have h := (Int.ediv_emod_unique (a := x + 2147483648) (b := 4294967296)
    (q := 1) (r := x + 2147483648 - 4294967296) (by norm_num)).mpr
    ⟨by ring, by omega, by omega⟩
  rw [h.2]
  ring

/-- C9 (the claim as stated fails): with `t = 1`, `d = 3`, `digits = 2` and
factor bases of the largest sizes the claim allows (`|RFB| = 1`,
`|AFB| = 3`, `|QCB| = 2`) the vectors have `7` columns and `pairs_needed` is
`8`, which is not `≥ 7 + 2`. -/
theorem pairs_needed_margin_not_two :
    ¬ (∀ (t d digits : Int) (fb : FactorBase), 0 ≤ t → 0 ≤ d → 0 ≤ digits →
        (fb.RFB.length : Int) ≤ t → (fb.AFB.length : Int) ≤ d * t →
        (fb.QCB.length : Int) ≤ digits →
        exponent_vector_columns fb + 2 ≤ pairs_needed t d digits) := by
  intro h
  have := h 1 3 2 { RFB := [2], AFB := [(2, 0), (3, 1), (5, 2)], QCB := [(7, 1), (11, 2)] }
    (by decide) (by decide) (by decide) (by decide) (by decide) (by decide)
  revert this
  decide

/-- C9 (amended): whenever `t + d*t + digits + 2` fits an `int`,
`pairs_needed` is `t + u + v + 2` with `u = d*t` and `v = digits`, and for
every factor base with `|RFB| ≤ t`, `|AFB| ≤ d*t` and `|QCB| ≤ digits` it
exceeds the exponent-vector column count `|RFB| + |AFB| + 1 + |QCB|` by at
least `1`. -/
theorem pairs_needed_margin_one (t d digits : Int) (fb : FactorBase)
    (ht : 0 ≤ t) (hd : 0 ≤ d) (hv : 0 ≤ digits)
    (hfit : t + d * t + digits + 2 < 2147483648)
    (hR : (fb.RFB.length : Int) ≤ t) (hA : (fb.AFB.length : Int) ≤ d * t)
    (hQ : (fb.QCB.length : Int) ≤ digits) :
    pairs_needed t d digits = t + d * t + digits + 2 ∧
    exponent_vector_columns fb + 1 ≤ pairs_needed t d digits := by
  have hdt : 0 ≤ d * t := mul_nonneg hd ht
  have hval : pairs_needed t d digits = t + d * t + digits + 2 := by
    unfold pairs_needed
    simp only
    rw [wrap32_of_range (d * t) (by omega) (by omega),
      wrap32_of_range (t + d * t) (by omega) (by omega),
      wrap32_of_range (t + d * t + digits) (by omega) (by omega),
      wrap32_of_range (t + d * t + digits + 2) (by omega) (by omega)]
  refine ⟨hval, ?_⟩
  rw [hval]
  unfold exponent_vector_columns
  omega

theorem pairs_needed_margin_one_witness :
    pairs_needed 1 3 2 = 1 + 3 * 1 + 2 + 2 ∧
    exponent_vector_columns
      { RFB := [2], AFB := [(2, 0), (3, 1), (5, 2)], QCB := [(7, 1), (11, 2)] } + 1
      ≤ pairs_needed 1 3 2 :=
  pairs_needed_margin_one 1 3 2
    { RFB := [2], AFB := [(2, 0), (3, 1), (5, 2)], QCB := [(7, 1), (11, 2)] }
    (by decide) (by decide) (by decide) (by decide) (by decide) (by decide) (by decide)

/-! ### Real arithmetic -/

theorem RR_log_of_pos {x : ℝ} (h : 0 < x) : RR_log x = some (Real.log x) := by
  simp [RR_log, h]

theorem RR_log_of_nonpos {x : ℝ} (h : x ≤ 0) : RR_log x = none := by
  simp [RR_log, not_lt.mpr h]

theorem RR_pow_of_nonneg {x : ℝ} (h : 0 ≤ x) (y : ℝ) : RR_pow x y = some (x ^ y) := by
  simp [RR_pow, not_lt.mpr h]

theorem RR_sqrt_of_nonneg {x : ℝ} (h : 0 ≤ x) : RR_sqrt x = some (Real.sqrt x) := by
  simp [RR_sqrt, not_lt.mpr h]

theorem RR_sqrt_of_neg {x : ℝ} (h : x < 0) : RR_sqrt x = none := by
  simp [RR_sqrt, h]

theorem one_lt_log_three : 1 < Real.log 3 := by
  rw [Real.lt_log_iff_exp_lt (by norm_num)]
  have := Real.exp_one_lt_d9
  linarith

theorem one_lt_log_of_three_le {n : Int} (h : 3 ≤ n) : 1 < Real.log (n : ℝ) := by
  have h3 : (3 : ℝ) ≤ (n : ℝ) := by exact_mod_cast h
  exact lt_of_lt_of_le one_lt_log_three (Real.log_le_log (by norm_num) h3)

theorem floor_exp_nonneg (x : ℝ) : 0 ≤ ⌊Real.exp x⌋ :=
  Int.floor_nonneg.mpr (Real.exp_pos x).le

theorem to_int_of_fits {x : ℝ} (h0 : 0 ≤ ⌊x⌋) (h1 : ⌊x⌋ < 2147483648) :
    to_int x = ⌊x⌋ := by
  unfold to_int
  exact wrap32_of_range _ (by omega) h1

theorem calc_B_eq {n : Int} (h : 3 ≤ n) :
    calc_B n = some (wrap32 (10 * to_int (Real.exp (B_exponent n)))) := by
  have hlog : 1 < Real.log (n : ℝ) := one_lt_log_of_three_le h
  have hn : (0 : ℝ) < (n : ℝ) := by
    have : (3 : ℝ) ≤ (n : ℝ) := by exact_mod_cast h
    linarith
  have hloglog : 0 < Real.log (Real.log (n : ℝ)) := Real.log_pos hlog
  unfold calc_B
  rw [RR_log_of_pos hn]
  simp only [Option.bind_eq_bind, Option.some_bind, Option.pure_def]
  rw [RR_log_of_pos (by linarith)]
  simp only [Option.some_bind]
  rw [RR_pow_of_nonneg (by norm_num)]
  simp only [Option.some_bind]
  rw [RR_pow_of_nonneg (by linarith)]
  simp only [Option.some_bind]
  rw [RR_pow_of_nonneg hloglog.le]
  simp only [Option.some_bind]
  rfl

theorem B_closed_form_eq (n : Int) : B_closed_form n = 10 * Real.exp (B_exponent n) :=
  rfl

theorem B_closed_form_div_ten (n : Int) :
    B_closed_form n / 10 = Real.exp (B_exponent n) := by
  rw [B_closed_form_eq]
  ring

/-- As long as `10 * floor(exp(...))` is below `2^31` neither the conversion
nor the multiplication leaves the range of `int`, and `calc_B` returns that
number. -/
theorem calc_B_of_fits {n : Int} (h : 3 ≤ n)
    (hfit : 10 * ⌊B_closed_form n / 10⌋ < 2147483648) :
    calc_B n = some (10 * ⌊B_closed_form n / 10⌋) := by
  rw [B_closed_form_div_ten] at hfit ⊢
  have h0 := floor_exp_nonneg (B_exponent n)
  rw [calc_B_eq h, to_int_of_fits h0 (by omega),
    wrap32_of_range _ (by omega) hfit]

theorem B_exponent_mono {n1 n2 : Int} (h1 : 3 ≤ n1) (h12 : n1 ≤ n2) :
    B_exponent n1 ≤ B_exponent n2 := by
  have hl1 : 1 < Real.log (n1 : ℝ) := one_lt_log_of_three_le h1
  have hn1 : (0 : ℝ) < (n1 : ℝ) := by
    have : (3 : ℝ) ≤ (n1 : ℝ) := by exact_mod_cast h1
    linarith
  have hcast : (n1 : ℝ) ≤ (n2 : ℝ) := by exact_mod_cast h12
  have hlog : Real.log (n1 : ℝ) ≤ Real.log (n2 : ℝ) := Real.log_le_log hn1 hcast
  have hll1 : 0 < Real.log (Real.log (n1 : ℝ)) := Real.log_pos hl1
  have hloglog : Real.log (Real.log (n1 : ℝ)) ≤ Real.log (Real.log (n2 : ℝ)) :=
    Real.log_le_log (by linarith) hlog
  have hB : (Real.log (n1 : ℝ)) ^ ((1 : ℝ) / 3) ≤ (Real.log (n2 : ℝ)) ^ ((1 : ℝ) / 3) :=
    Real.rpow_le_rpow (by linarith) hlog (by norm_num)
  have hC : (Real.log (Real.log (n1 : ℝ))) ^ ((2 : ℝ) / 3) ≤
      (Real.log (Real.log (n2 : ℝ))) ^ ((2 : ℝ) / 3) :=
    Real.rpow_le_rpow hll1.le hloglog (by norm_num)
  have hA0 : (0 : ℝ) ≤ ((8 : ℝ) / 9) ^ ((1 : ℝ) / 3) := Real.rpow_nonneg (by norm_num) _
  have hB0 : (0 : ℝ) ≤ (Real.log (n1 : ℝ)) ^ ((1 : ℝ) / 3) :=
    Real.rpow_nonneg (by linarith) _
  have hB2 : (0 : ℝ) ≤ (Real.log (n2 : ℝ)) ^ ((1 : ℝ) / 3) := le_trans hB0 hB
  have hC0 : (0 : ℝ) ≤ (Real.log (Real.log (n1 : ℝ))) ^ ((2 : ℝ) / 3) :=
    Real.rpow_nonneg hll1.le _
  unfold B_exponent
  exact mul_le_mul (mul_le_mul_of_nonneg_left hB hA0) hC hC0 (mul_nonneg hA0 hB2)

theorem floor_B_closed_form_mono {n1 n2 : Int} (h1 : 3 ≤ n1) (h12 : n1 ≤ n2) :
    ⌊B_closed_form n1 / 10⌋ ≤ ⌊B_closed_form n2 / 10⌋ := by
  rw [B_closed_form_div_ten, B_closed_form_div_ten]
  exact Int.floor_le_floor (Real.exp_le_exp.mpr (B_exponent_mono h1 h12))

/-- C3 (amended): `calc_B` is monotonically non-decreasing in `n` as long as
its result fits an `int`: for all integers `3 ≤ n1 ≤ n2` with
`10 * floor(exp((8/9)^(1/3) (ln n2)^(1/3) (ln ln n2)^(2/3))) < 2^31` both
calls return and `calc_B(n1) ≤ calc_B(n2)` (real operations exact, integer
conversion the integer part). -/
theorem calc_B_mono (n1 n2 : Int) (h1 : 3 ≤ n1) (h12 : n1 ≤ n2)
    (hfit : 10 * ⌊B_closed_form n2 / 10⌋ < 2147483648) :
    ∃ b1 b2 : Int, calc_B n1 = some b1 ∧ calc_B n2 = some b2 ∧ b1 ≤ b2 := by
  have hfl := floor_B_closed_form_mono h1 h12
  refine ⟨_, _, calc_B_of_fits h1 (by omega), calc_B_of_fits (le_trans h1 h12) hfit, ?_⟩
  omega

/-- C2 (amended): for every integer `n ≥ 3` whose result fits an `int`
(`10 * floor(exp(...)) < 2^31`), `calc_B(n)` returns `10 * floor(exp(...))`,
which lies below the closed form
`B = 10 * exp((8/9)^(1/3) (ln n)^(1/3) (ln ln n)^(2/3))` by less than `10`:
`calc_B(n) = 10 * floor(B / 10)`, `calc_B(n) ≤ B` and `|calc_B(n) - B| < 10`. -/
theorem calc_B_near_closed_form (n : Int) (h : 3 ≤ n)
    (hfit : 10 * ⌊B_closed_form n / 10⌋ < 2147483648) :
    calc_B n = some (10 * ⌊B_closed_form n / 10⌋) ∧
      ((10 * ⌊B_closed_form n / 10⌋ : Int) : ℝ) ≤ B_closed_form n ∧
      |((10 * ⌊B_closed_form n / 10⌋ : Int) : ℝ) - B_closed_form n| < 10 := by
  have h1 := Int.floor_le (B_closed_form n / 10)
  have h2 := Int.lt_floor_add_one (B_closed_form n / 10)
  refine ⟨calc_B_of_fits h hfit, ?_, ?_⟩
  · push_cast
    linarith
  · push_cast
    rw [abs_lt]
    constructor <;> linarith

/-! ### Numerical bounds -/

theorem rpow_one_third_le {x b : ℝ} (hx : 0 ≤ x) (hb : 0 ≤ b) (h : x ≤ b ^ 3) :
    x ^ ((1 : ℝ) / 3) ≤ b := by
  have h1 : x ^ ((1 : ℝ) / 3) ≤ (b ^ 3) ^ ((1 : ℝ) / 3) :=
    Real.rpow_le_rpow hx h (by norm_num)
  have h2 : (b ^ 3) ^ ((1 : ℝ) / 3) = b := by
    rw [← Real.rpow_natCast, ← Real.rpow_mul hb]
    norm_num
  linarith

theorem le_rpow_one_third {x a : ℝ} (ha : 0 ≤ a) (h : a ^ 3 ≤ x) :
    a ≤ x ^ ((1 : ℝ) / 3) := by
  have h1 : (a ^ 3) ^ ((1 : ℝ) / 3) ≤ x ^ ((1 : ℝ) / 3) :=
    Real.rpow_le_rpow (by positivity) h (by norm_num)
  have h2 : (a ^ 3) ^ ((1 : ℝ) / 3) = a := by
    rw [← Real.rpow_natCast, ← Real.rpow_mul ha]
    norm_num
  linarith

theorem rpow_two_thirds_eq {y : ℝ} (hy : 0 ≤ y) :
    y ^ ((2 : ℝ) / 3) = (y ^ 2) ^ ((1 : ℝ) / 3) := by
  rw [← Real.rpow_natCast, ← Real.rpow_mul hy]
  norm_num

theorem rpow_two_thirds_le {y c : ℝ} (hy : 0 ≤ y) (hc : 0 ≤ c) (h : y ^ 2 ≤ c ^ 3) :
    y ^ ((2 : ℝ) / 3) ≤ c := by
  rw [rpow_two_thirds_eq hy]
  exact rpow_one_third_le (by positivity) hc h

theorem le_rpow_two_thirds {y c : ℝ} (hy : 0 ≤ y) (hc : 0 ≤ c) (h : c ^ 3 ≤ y ^ 2) :
    c ≤ y ^ ((2 : ℝ) / 3) := by
  rw [rpow_two_thirds_eq hy]
  exact le_rpow_one_third hc h

theorem log_four_eq : Real.log 4 = 2 * Real.log 2 := by
  rw [show (4 : ℝ) = 2 ^ 2 by norm_num, Real.log_pow]
  norm_num

theorem log_four_bounds : 1.386 < Real.log 4 ∧ Real.log 4 < 1.387 := by
  have h1 := Real.log_two_gt_d9
  have h2 := Real.log_two_lt_d9
  rw [log_four_eq]
  constructor <;> linarith

theorem log_log_four_bounds :
    0.278 ≤ Real.log (Real.log 4) ∧ Real.log (Real.log 4) ≤ 0.387 := by
  obtain ⟨h1, h2⟩ := log_four_bounds
  have hpos : 0 < Real.log 4 := by linarith
  constructor
  · have hl := Real.one_sub_inv_le_log_of_pos hpos
    have hinv : (Real.log 4)⁻¹ ≤ (1.386 : ℝ)⁻¹ := inv_anti₀ (by norm_num) h1.le
    have hnum : (1.386 : ℝ)⁻¹ ≤ 0.722 := by norm_num
    linarith
  · have hl := Real.log_le_sub_one_of_pos hpos
    linarith

theorem B_exponent_four_bounds : 0.24 ≤ B_exponent 4 ∧ B_exponent 4 ≤ 0.61 := by
  obtain ⟨h1, h2⟩ := log_four_bounds
  obtain ⟨h3, h4⟩ := log_log_four_bounds
  have hA1 : (8 : ℝ) / 9 ≤ ((8 : ℝ) / 9) ^ ((1 : ℝ) / 3) :=
    le_rpow_one_third (by norm_num) (by norm_num)
  have hA2 : ((8 : ℝ) / 9) ^ ((1 : ℝ) / 3) ≤ 1 :=
    rpow_one_third_le (by norm_num) (by norm_num) (by norm_num)
  have hB1 : (1 : ℝ) ≤ (Real.log 4) ^ ((1 : ℝ) / 3) :=
    le_rpow_one_third (by norm_num) (by linarith)
  have hB2 : (Real.log 4) ^ ((1 : ℝ) / 3) ≤ 1.12 :=
    rpow_one_third_le (by linarith) (by norm_num) (by norm_num; linarith)
  have hC1 : (0.278 : ℝ) ≤ (Real.log (Real.log 4)) ^ ((2 : ℝ) / 3) := by
    refine le_rpow_two_thirds (by linarith) (by norm_num) ?_
    have : (0.278 : ℝ) ^ 2 ≤ (Real.log (Real.log 4)) ^ 2 :=
      pow_le_pow_left₀ (by norm_num) h3 2
    have h5 : (0.278 : ℝ) ^ 3 ≤ (0.278 : ℝ) ^ 2 := by norm_num
    linarith
  have hC2 : (Real.log (Real.log 4)) ^ ((2 : ℝ) / 3) ≤ 0.54 := by
    refine rpow_two_thirds_le (by linarith) (by norm_num) ?_
    have : (Real.log (Real.log 4)) ^ 2 ≤ (0.387 : ℝ) ^ 2 :=
      pow_le_pow_left₀ (by linarith) h4 2
    have h5 : (0.387 : ℝ) ^ 2 ≤ (0.54 : ℝ) ^ 3 := by norm_num
    linarith
  have e : B_exponent 4 = ((8 : ℝ) / 9) ^ ((1 : ℝ) / 3) * (Real.log 4) ^ ((1 : ℝ) / 3) *
      (Real.log (Real.log 4)) ^ ((2 : ℝ) / 3) := by
    unfold B_exponent
    norm_num
  rw [e]
  constructor
  · have hAB : (8 : ℝ) / 9 * 1 ≤
        ((8 : ℝ) / 9) ^ ((1 : ℝ) / 3) * (Real.log 4) ^ ((1 : ℝ) / 3) :=
      mul_le_mul hA1 hB1 (by norm_num) (by linarith)
    have hABC : (8 : ℝ) / 9 * 1 * 0.278 ≤
        ((8 : ℝ) / 9) ^ ((1 : ℝ) / 3) * (Real.log 4) ^ ((1 : ℝ) / 3) *
          (Real.log (Real.log 4)) ^ ((2 : ℝ) / 3) :=
      mul_le_mul hAB hC1 (by norm_num) (by linarith)
    have : (0.24 : ℝ) ≤ (8 : ℝ) / 9 * 1 * 0.278 := by norm_num
    linarith
  · have hAB : ((8 : ℝ) / 9) ^ ((1 : ℝ) / 3) * (Real.log 4) ^ ((1 : ℝ) / 3) ≤ 1 * 1.12 :=
      mul_le_mul hA2 hB2 (by linarith) (by norm_num)
    have hABC : ((8 : ℝ) / 9) ^ ((1 : ℝ) / 3) * (Real.log 4) ^ ((1 : ℝ) / 3) *
          (Real.log (Real.log 4)) ^ ((2 : ℝ) / 3) ≤ 1 * 1.12 * 0.54 :=
      mul_le_mul hAB hC2 (by linarith) (by norm_num)
    have : (1 : ℝ) * 1.12 * 0.54 ≤ 0.61 := by norm_num
    linarith

theorem exp_B_exponent_four_bounds :
    1.24 ≤ Real.exp (B_exponent 4) ∧ Real.exp (B_exponent 4) < 2 := by
  obtain ⟨h1, h2⟩ := B_exponent_four_bounds
  constructor
  · have := Real.add_one_le_exp (B_exponent 4)
    linarith
  · rw [← Real.lt_log_iff_exp_lt (by norm_num)]
    have := Real.log_two_gt_d9
    linarith

theorem floor_B_closed_form_four : ⌊B_closed_form 4 / 10⌋ = 1 := by
  obtain ⟨h1, h2⟩ := exp_B_exponent_four_bounds
  rw [B_closed_form_div_ten, Int.floor_eq_iff]
  constructor
  · push_cast; linarith
  · push_cast; linarith

theorem calc_B_four : calc_B 4 = some 10 := by
  rw [calc_B_of_fits (by decide) (by rw [floor_B_closed_form_four]; decide),
    floor_B_closed_form_four]
  rfl

/-- C2 (the claim as stated fails): at `n = 4` the code returns
`10 * floor(exp(0.508...)) = 10`, while the closed form
`10 * exp(0.508...)` exceeds `12.4`, so they differ by more than `1`. -/
theorem calc_B_four_off_by_more_than_one :
    calc_B 4 = some 10 ∧ 12.4 ≤ B_closed_form 4 ∧
      ¬ |((10 : Int) : ℝ) - B_closed_form 4| < 1 := by
  obtain ⟨h1, h2⟩ := exp_B_exponent_four_bounds
  have hB : 12.4 ≤ B_closed_form 4 := by
    rw [B_closed_form_eq]
    linarith
  refine ⟨calc_B_four, hB, ?_⟩
  rw [abs_lt]
  push_cast
  intro h
  linarith [h.1]

theorem log_sixteen_eq : Real.log 16 = 4 * Real.log 2 := by
  rw [show (16 : ℝ) = 2 ^ 4 by norm_num, Real.log_pow]
  norm_num

theorem exp_B_exponent_sixteen_lt : Real.exp (B_exponent 16) < 16 := by
  have h1 := Real.log_two_gt_d9
  have h2 := Real.log_two_lt_d9
  have hl : Real.log 16 = 4 * Real.log 2 := log_sixteen_eq
  have hl1 : 1 ≤ Real.log 16 := by rw [hl]; linarith
  have hll0 : 0 ≤ Real.log (Real.log 16) := Real.log_nonneg hl1
  have hll1 : Real.log (Real.log 16) ≤ 1.78 := by
    have := Real.log_le_sub_one_of_pos (show 0 < Real.log 16 by linarith)
    rw [hl] at this ⊢
    linarith
  have hA : ((8 : ℝ) / 9) ^ ((1 : ℝ) / 3) ≤ 1 :=
    rpow_one_third_le (by norm_num) (by norm_num) (by norm_num)
  have hA0 : (0 : ℝ) ≤ ((8 : ℝ) / 9) ^ ((1 : ℝ) / 3) := Real.rpow_nonneg (by norm_num) _
  have hB : (Real.log 16) ^ ((1 : ℝ) / 3) ≤ 1.5 :=
    rpow_one_third_le (by linarith) (by norm_num) (by rw [hl]; norm_num; linarith)
  have hB0 : (0 : ℝ) ≤ (Real.log 16) ^ ((1 : ℝ) / 3) := Real.rpow_nonneg (by linarith) _
  have hC : (Real.log (Real.log 16)) ^ ((2 : ℝ) / 3) ≤ 1.5 := by
    refine rpow_two_thirds_le hll0 (by norm_num) ?_
    have : (Real.log (Real.log 16)) ^ 2 ≤ (1.78 : ℝ) ^ 2 := pow_le_pow_left₀ hll0 hll1 2
    have h5 : (1.78 : ℝ) ^ 2 ≤ (1.5 : ℝ) ^ 3 := by norm_num
    linarith
  have hC0 : (0 : ℝ) ≤ (Real.log (Real.log 16)) ^ ((2 : ℝ) / 3) := Real.rpow_nonneg hll0 _
  have e : B_exponent 16 = ((8 : ℝ) / 9) ^ ((1 : ℝ) / 3) * (Real.log 16) ^ ((1 : ℝ) / 3) *
      (Real.log (Real.log 16)) ^ ((2 : ℝ) / 3) := by
    unfold B_exponent
    norm_num
  have hAB : ((8 : ℝ) / 9) ^ ((1 : ℝ) / 3) * (Real.log 16) ^ ((1 : ℝ) / 3) ≤ 1 * 1.5 :=
    mul_le_mul hA hB hB0 (by norm_num)
  have hABC : ((8 : ℝ) / 9) ^ ((1 : ℝ) / 3) * (Real.log 16) ^ ((1 : ℝ) / 3) *
      (Real.log (Real.log 16)) ^ ((2 : ℝ) / 3) ≤ 1 * 1.5 * 1.5 :=
    mul_le_mul hAB hC hC0 (by norm_num)
  have h16 : (1 : ℝ) * 1.5 * 1.5 < Real.log 16 := by rw [hl]; linarith
  rw [← Real.lt_log_iff_exp_lt (by norm_num), e]
  linarith

theorem B_closed_form_sixteen_fits : 10 * ⌊B_closed_form 16 / 10⌋ < 2147483648 := by
  have h := exp_B_exponent_sixteen_lt
  have hfl : ⌊B_closed_form 16 / 10⌋ < 16 := by
    rw [B_closed_form_div_ten, Int.floor_lt]
    exact_mod_cast h
  omega

theorem calc_B_mono_witness :
    ∃ b1 b2 : Int, calc_B 4 = some b1 ∧ calc_B 16 = some b2 ∧ b1 ≤ b2 :=
  calc_B_mono 4 16 (by decide) (by decide) B_closed_form_sixteen_fits

theorem calc_B_near_closed_form_witness :
    calc_B 16 = some (10 * ⌊B_closed_form 16 / 10⌋) ∧
      ((10 * ⌊B_closed_form 16 / 10⌋ : Int) : ℝ) ≤ B_closed_form 16 ∧
      |((10 * ⌊B_closed_form 16 / 10⌋ : Int) : ℝ) - B_closed_form 16| < 10 :=
  calc_B_near_closed_form 16 (by decide) B_closed_form_sixteen_fits

/-! ### `calc_U` -/

theorem log_rpow_inv_eq {n : Int} (hn : 2 ≤ n) (d : Int) :
    Real.log ((n : ℝ) ^ ((1 : ℝ) / (d : ℝ))) = Real.log (n : ℝ) / (d : ℝ) := by
  have hn0 : (0 : ℝ) < (n : ℝ) := by
    have : (2 : ℝ) ≤ (n : ℝ) := by exact_mod_cast hn
    linarith
  rw [Real.log_rpow hn0]
  ring

theorem log_rpow_inv_pos {n d : Int} (hn : 2 ≤ n) (hd : 1 ≤ d) :
    0 < Real.log ((n : ℝ) ^ ((1 : ℝ) / (d : ℝ))) := by
  have hn1 : (1 : ℝ) < (n : ℝ) := by
    have : (2 : ℝ) ≤ (n : ℝ) := by exact_mod_cast hn
    linarith
  have hd0 : (0 : ℝ) < (d : ℝ) := by
    have : (1 : ℝ) ≤ (d : ℝ) := by exact_mod_cast hd
    linarith
  rw [log_rpow_inv_eq hn d]
  exact div_pos (Real.log_pos hn1) hd0

theorem calc_U_eq_sqrt {n d : Int} (hn : 2 ≤ n) (hd : 1 ≤ d) :
    calc_U n d = (RR_sqrt (U_radicand n d)).bind
      (fun root => some (to_int (Real.exp ((1 + 0) / 2 *
        ((d : ℝ) * Real.log (d : ℝ) + root))))) := by
  have hn0 : (0 : ℝ) < (n : ℝ) := by
    have : (2 : ℝ) ≤ (n : ℝ) := by exact_mod_cast hn
    linarith
  have hd0 : (0 : ℝ) < (d : ℝ) := by
    have : (1 : ℝ) ≤ (d : ℝ) := by exact_mod_cast hd
    linarith
  unfold calc_U
  rw [RR_log_of_pos hd0]
  simp only [Option.bind_eq_bind, Option.some_bind, Option.pure_def]
  rw [RR_pow_of_nonneg hn0.le]
  simp only [Option.some_bind]
  rw [RR_log_of_pos (Real.rpow_pos_of_pos hn0 _)]
  simp only [Option.some_bind]
  rw [RR_log_of_pos (log_rpow_inv_pos hn hd)]
  simp only [Option.some_bind]
  rfl

theorem calc_U_of_radicand_nonneg {n d : Int} (hn : 2 ≤ n) (hd : 1 ≤ d)
    (h : 0 ≤ U_radicand n d) :
    calc_U n d = some (to_int (Real.exp (U_exponent n d))) := by
  rw [calc_U_eq_sqrt hn hd, RR_sqrt_of_nonneg h]
  rfl

theorem calc_U_of_radicand_neg {n d : Int} (hn : 2 ≤ n) (hd : 1 ≤ d)
    (h : U_radicand n d < 0) :
    calc_U n d = none := by
  rw [calc_U_eq_sqrt hn hd, RR_sqrt_of_neg h]
  rfl

theorem U_radicand_eq {n d : Int} (hn : 2 ≤ n) (hd : 1 ≤ d) :
    U_radicand n d = Real.log (d : ℝ) *
      ((((d : ℝ)) ^ 2 - 4) * Real.log (d : ℝ) + 4 * Real.log (Real.log (n : ℝ))) := by
  have hn1 : (1 : ℝ) < (n : ℝ) := by
    have : (2 : ℝ) ≤ (n : ℝ) := by exact_mod_cast hn
    linarith
  have hd0 : (0 : ℝ) < (d : ℝ) := by
    have : (1 : ℝ) ≤ (d : ℝ) := by exact_mod_cast hd
    linarith
  have hlog : 0 < Real.log (n : ℝ) := Real.log_pos hn1
  unfold U_radicand
  rw [log_rpow_inv_eq hn d, Real.log_div hlog.ne.symm (ne_of_gt hd0)]
  ring

theorem U_radicand_mono {n1 n2 d : Int} (h1 : 2 ≤ n1) (h12 : n1 ≤ n2) (hd : 1 ≤ d) :
    U_radicand n1 d ≤ U_radicand n2 d := by
  have hn1 : (1 : ℝ) < (n1 : ℝ) := by
    have : (2 : ℝ) ≤ (n1 : ℝ) := by exact_mod_cast h1
    linarith
  have hcast : (n1 : ℝ) ≤ (n2 : ℝ) := by exact_mod_cast h12
  have hd1 : (1 : ℝ) ≤ (d : ℝ) := by exact_mod_cast hd
  have hlogd : 0 ≤ Real.log (d : ℝ) := Real.log_nonneg hd1
  have hlog1 : 0 < Real.log (n1 : ℝ) := Real.log_pos hn1
  have hlog : Real.log (n1 : ℝ) ≤ Real.log (n2 : ℝ) := Real.log_le_log (by linarith) hcast
  have hloglog : Real.log (Real.log (n1 : ℝ)) ≤ Real.log (Real.log (n2 : ℝ)) :=
    Real.log_le_log hlog1 hlog
  rw [U_radicand_eq h1 hd, U_radicand_eq (le_trans h1 h12) hd]
  apply mul_le_mul_of_nonneg_left _ hlogd
  linarith

theorem U_exponent_mono {n1 n2 d : Int} (h1 : 2 ≤ n1) (h12 : n1 ≤ n2) (hd : 1 ≤ d) :
    U_exponent n1 d ≤ U_exponent n2 d := by
  have hs : Real.sqrt (U_radicand n1 d) ≤ Real.sqrt (U_radicand n2 d) :=
    Real.sqrt_le_sqrt (U_radicand_mono h1 h12 hd)
  unfold U_exponent
  linarith

theorem log_log_two_bounds :
    -0.45 ≤ Real.log (Real.log 2) ∧ Real.log (Real.log 2) < 0 := by
  have h1 := Real.log_two_gt_d9
  have h2 := Real.log_two_lt_d9
  have hpos : 0 < Real.log 2 := by linarith
  constructor
  · have hl := Real.one_sub_inv_le_log_of_pos hpos
    have hinv : (Real.log 2)⁻¹ ≤ (0.693 : ℝ)⁻¹ := inv_anti₀ (by norm_num) (by linarith)
    have hnum : (0.693 : ℝ)⁻¹ ≤ 1.45 := by norm_num
    linarith
  · exact Real.log_neg hpos (by linarith)

theorem U_radicand_two_two_neg : U_radicand 2 2 < 0 := by
  obtain ⟨_, h2⟩ := log_log_two_bounds
  have h1 := Real.log_two_gt_d9
  have hpos : 0 < Real.log 2 := by linarith
  rw [U_radicand_eq (by decide) (by decide)]
  push_cast
  have hprod : Real.log 2 * Real.log (Real.log 2) < 0 := mul_neg_of_pos_of_neg hpos h2
  nlinarith

theorem U_radicand_nonneg {n d : Int} (hn : 2 ≤ n) (hd : 1 ≤ d)
    (hex : ¬ (d = 2 ∧ n = 2)) : 0 ≤ U_radicand n d := by
  have hn2 : (2 : ℝ) ≤ (n : ℝ) := by exact_mod_cast hn
  have hd1 : (1 : ℝ) ≤ (d : ℝ) := by exact_mod_cast hd
  have hlogd : 0 ≤ Real.log (d : ℝ) := Real.log_nonneg hd1
  rw [U_radicand_eq hn hd]
  rcases hd.eq_or_lt with hd1e | hd2
  · -- d = 1
    subst hd1e
    simp
  apply mul_nonneg hlogd
  rcases (show (2 : Int) ≤ d from hd2).eq_or_lt with hd2e | hd3
  · -- d = 2, hence n ≥ 3
    subst hd2e
    have hn3 : 3 ≤ n := by omega
    have hll : 0 < Real.log (Real.log (n : ℝ)) := Real.log_pos (one_lt_log_of_three_le hn3)
    push_cast
    linarith
  · -- d ≥ 3
    have hd3r : (3 : ℝ) ≤ (d : ℝ) := by exact_mod_cast (show (3 : Int) ≤ d from hd3)
    have hlog3 : 1 < Real.log (d : ℝ) :=
      lt_of_lt_of_le one_lt_log_three (Real.log_le_log (by norm_num) hd3r)
    have hlog2 : 0 < Real.log 2 := by
      have := Real.log_two_gt_d9
      linarith
    have hlogn : Real.log 2 ≤ Real.log (n : ℝ) := Real.log_le_log (by norm_num) hn2
    have hll : Real.log (Real.log 2) ≤ Real.log (Real.log (n : ℝ)) :=
      Real.log_le_log hlog2 hlogn
    obtain ⟨hb, _⟩ := log_log_two_bounds
    have hsq : (5 : ℝ) ≤ (d : ℝ) ^ 2 - 4 := by nlinarith
    have hmul : (5 : ℝ) * 1 ≤ ((d : ℝ) ^ 2 - 4) * Real.log (d : ℝ) :=
      mul_le_mul hsq hlog3.le (by norm_num) (by linarith)
    linarith

/-- The term under the square root in the formula of the comment of `calc_U`
(and of the specification) is positive at `n = 2`, `d = 2`:
`(2 ln 2)^2 + 4 ln(2^(1/2)) ln ln(2^(1/2)) > 0.3`. -/
theorem documented_radicand_two_two_pos :
    0.3 < (((2 : Int) : ℝ) * Real.log ((2 : Int) : ℝ)) ^ 2 +
      4 * Real.log ((((2 : Int)) : ℝ) ^ ((1 : ℝ) / ((2 : Int) : ℝ))) *
        Real.log (Real.log ((((2 : Int)) : ℝ) ^ ((1 : ℝ) / ((2 : Int) : ℝ)))) := by
  obtain ⟨hb, _⟩ := log_log_two_bounds
  have h1 := Real.log_two_gt_d9
  have h2 := Real.log_two_lt_d9
  have hpos : 0 < Real.log 2 := by linarith
  rw [log_rpow_inv_eq (by decide) 2]
  push_cast
  rw [Real.log_div (ne_of_gt hpos) (by norm_num)]
  have hsq : (0.6931 : ℝ) * 0.6931 ≤ Real.log 2 * Real.log 2 :=
    mul_le_mul (by linarith) (by linarith) (by norm_num) (by linarith)
  have hinner : -1.15 ≤ Real.log (Real.log 2) - Real.log 2 := by linarith
  have hprod : Real.log 2 * (-1.15) ≤
      Real.log 2 * (Real.log (Real.log 2) - Real.log 2) :=
    mul_le_mul_of_nonneg_left hinner hpos.le
  nlinarith

/-- C4 (the code at a failing input): for `d = 2` and `n = 2` the argument of
the square root in the code, `(2 ln 2)^2 + 4 ln 2 * ln ln sqrt 2 =
4 ln 2 * ln ln 2`, is negative, so `calc_U(2, 2)` does not return a value and
there is nothing to compare; with the term `4 ln(n^(1/d)) ln ln(n^(1/d))` of
the code's comment the argument would be positive there. -/
theorem calc_U_two_two_fails :
    calc_U 2 2 = none ∧
      (¬ ∃ u1 u2 : Int, calc_U 2 2 = some u1 ∧ calc_U 2 2 = some u2 ∧ u1 ≤ u2) ∧
      0.3 < (((2 : Int) : ℝ) * Real.log ((2 : Int) : ℝ)) ^ 2 +
        4 * Real.log ((((2 : Int)) : ℝ) ^ ((1 : ℝ) / ((2 : Int) : ℝ))) *
          Real.log (Real.log ((((2 : Int)) : ℝ) ^ ((1 : ℝ) / ((2 : Int) : ℝ)))) := by
  have h : calc_U 2 2 = none :=
    calc_U_of_radicand_neg (by decide) (by decide) U_radicand_two_two_neg
  refine ⟨h, ?_, documented_radicand_two_two_pos⟩
  rintro ⟨u1, u2, h1, _, _⟩
  rw [h] at h1
  exact Option.noConfusion h1

/-- Away from that input and within the range of `int`, the code's `calc_U`
is non-decreasing in `n`: for `d ≥ 1` and `2 ≤ n1 ≤ n2`, not `d = 2` with
`n1 = 2`, and `floor(exp(...)) < 2^31` at `n2`, both calls return and
`calc_U(n1, d) ≤ calc_U(n2, d)`. -/
theorem calc_U_mono_of_fits (d n1 n2 : Int) (hd : 1 ≤ d) (h1 : 2 ≤ n1) (h12 : n1 ≤ n2)
    (hex : ¬ (d = 2 ∧ n1 = 2))
    (hfit : ⌊Real.exp (U_exponent n2 d)⌋ < 2147483648) :
    ∃ u1 u2 : Int, calc_U n1 d = some u1 ∧ calc_U n2 d = some u2 ∧ u1 ≤ u2 := by
  have hr1 : 0 ≤ U_radicand n1 d := U_radicand_nonneg h1 hd hex
  have hr2 : 0 ≤ U_radicand n2 d := le_trans hr1 (U_radicand_mono h1 h12 hd)
  have hfl : ⌊Real.exp (U_exponent n1 d)⌋ ≤ ⌊Real.exp (U_exponent n2 d)⌋ :=
    Int.floor_le_floor (Real.exp_le_exp.mpr (U_exponent_mono h1 h12 hd))
  refine ⟨_, _, calc_U_of_radicand_nonneg h1 hd hr1,
    calc_U_of_radicand_nonneg (le_trans h1 h12) hd hr2, ?_⟩
  rw [to_int_of_fits (floor_exp_nonneg _) (by omega),
    to_int_of_fits (floor_exp_nonneg _) hfit]
  exact hfl

/-! ### `target.digits` -/

theorem floor_log_div_log_ten (m : ℕ) :
    ⌊Real.log (m : ℝ) / Real.log 10⌋ = (Nat.log 10 m : Int) := by
  have h := Real.floor_logb_natCast (b := 10) (r := (m : ℝ)) (Nat.cast_nonneg m)
  rw [Int.log_natCast] at h
  simpa [Real.logb] using h

/-- In exact real arithmetic `floor(ln n / ln 10) + 1` is the number of
decimal digits of `n`, for every `n ≥ 1`. -/
theorem digits_formula_eq (n : Int) (hn : 1 ≤ n) :
    digits_formula n = ((Nat.digits 10 n.toNat).length : Int) := by
  obtain ⟨m, rfl⟩ := Int.eq_ofNat_of_zero_le (by omega : 0 ≤ n)
  have hm : 1 ≤ m := by exact_mod_cast hn
  unfold digits_formula
  have hcast : (((m : Int) : ℝ)) = (m : ℝ) := by push_cast; rfl
  rw [hcast, floor_log_div_log_ten, Int.toNat_ofNat,
    Nat.digits_len 10 m (by norm_num) (by omega)]
  push_cast
  rfl

theorem round_half_even_of_close {R : Type} [LinearOrderedField R] [FloorRing R]
    (m : R) (k : Int) (h : |m - (k : R)| < 1 / 2) : round_half_even m = k := by
  rw [abs_lt] at h
  obtain ⟨h1, h2⟩ := h
  unfold round_half_even
  rcases le_or_lt (k : R) m with hk | hk
  · have hf : ⌊m⌋ = k := by
      rw [Int.floor_eq_iff]
      constructor
      · exact hk
      · linarith
    rw [hf, if_pos (by linarith)]
  · have hf : ⌊m⌋ = k - 1 := by
      rw [Int.floor_eq_iff]
      push_cast
      constructor <;> linarith
    rw [hf]
    push_cast
    rw [if_neg (by linarith), if_pos (by linarith)]
    ring

theorem int_log_two_eq {R : Type} [LinearOrderedField R] [FloorRing R] (x : R) (e : Int)
    (h1 : (2 : R) ^ e ≤ x) (h2 : x < (2 : R) ^ (e + 1)) : Int.log 2 x = e := by
  have hx : 0 < x := lt_of_lt_of_le (by positivity) h1
  have a : e ≤ Int.log 2 x :=
    (Int.zpow_le_iff_le_log (by norm_num) hx).mp (by exact_mod_cast h1)
  have b : Int.log 2 x < e + 1 :=
    (Int.lt_zpow_iff_log_lt (by norm_num) hx).mp (by exact_mod_cast h2)
  omega

/-- A value within half a unit in the last place of a `double` of its own
binade rounds to that `double`. -/
theorem round_double_of_close {R : Type} [LinearOrderedField R] [FloorRing R]
    (x : R) (e k : Int) (h1 : (2 : R) ^ e ≤ x) (h2 : x < (2 : R) ^ (e + 1))
    (h : |x - (k : R) * (2 : R) ^ (e - 52)| < (2 : R) ^ (e - 53)) :
    round_double x = (k : ℚ) * (2 : ℚ) ^ (e - 52) := by
  have hx : 0 < x := lt_of_lt_of_le (by positivity) h1
  have hlog := int_log_two_eq x e h1 h2
  unfold round_double
  rw [if_pos hx, hlog]
  congr 2
  apply round_half_even_of_close
  have hp : (0 : R) < (2 : R) ^ (e - 52) := by positivity
  have e1 : x / (2 : R) ^ (e - 52) - (k : R) =
      (x - (k : R) * (2 : R) ^ (e - 52)) / (2 : R) ^ (e - 52) := by
    rw [sub_div, mul_div_assoc, div_self (ne_of_gt hp), mul_one]
  rw [e1, abs_div, abs_of_pos hp, div_lt_iff₀ hp]
  have e2 : (1 : R) / 2 * (2 : R) ^ (e - 52) = (2 : R) ^ (e - 53) := by
    rw [show e - 52 = (e - 53) + 1 by ring, zpow_add_one₀ (by norm_num)]
    ring
  rw [e2]
  exact h

theorem log_inv_series_bound (x : ℝ) (hx0 : 0 < x) (hx1 : x < 1) (n : ℕ) :
    |(∑ i ∈ Finset.range n, x ^ (i + 1) / ((i : ℝ) + 1)) - Real.log (1 / (1 - x))| ≤
      x ^ (n + 1) / (1 - x) := by
  have h := Real.abs_log_sub_add_sum_range_le (x := x) (by rw [abs_of_pos hx0]; exact hx1) n
  rw [abs_of_pos hx0] at h
  rw [one_div, Real.log_inv, sub_neg_eq_add]
  exact h

theorem log_ten_eq :
    Real.log 10 =
      23 * Real.log (16 / 15) + 17 * Real.log (25 / 24) + 10 * Real.log (81 / 80) := by
  have e : (10 : ℝ) = (16 / 15) ^ 23 * (25 / 24) ^ 17 * (81 / 80) ^ 10 := by norm_num
  have h : Real.log ((16 / 15 : ℝ) ^ 23 * (25 / 24) ^ 17 * (81 / 80) ^ 10) =
      23 * Real.log (16 / 15) + 17 * Real.log (25 / 24) + 10 * Real.log (81 / 80) := by
    rw [Real.log_mul (by positivity) (by positivity),
      Real.log_mul (by positivity) (by positivity),
      Real.log_pow, Real.log_pow, Real.log_pow]
    push_cast
    ring
  rw [← h, ← e]

/-- Sixteen terms of the series of `ln(16/15) = -ln(1 - 1/16)`. -/
theorem log_16_15_near :
    |(858035597690008879399669 : ℝ) / 13294937388803948040683520 - Real.log (16 / 15)| ≤
      1 / 276701161105643274240 := by
  have h := log_inv_series_bound (1 / 16) (by norm_num) (by norm_num) 16
  have e1 : (1 : ℝ) / (1 - 1 / 16) = 16 / 15 := by norm_num
  have e2 : (∑ i ∈ Finset.range 16, (1 / 16 : ℝ) ^ (i + 1) / ((i : ℝ) + 1)) =
      (858035597690008879399669 : ℝ) / 13294937388803948040683520 := by
    norm_num [Finset.sum_range_succ]
  have e3 : (1 / 16 : ℝ) ^ (16 + 1) / (1 - 1 / 16) ≤ 1 / 276701161105643274240 := by norm_num
  rw [e1, e2] at h
  exact le_trans h e3

/-- Fourteen terms of the series of `ln(25/24) = -ln(1 - 1/25)`. -/
theorem log_25_24_near :
    |(109602614829831857131873 : ℝ) / 2684891223907470703125000 - Real.log (25 / 24)| ≤
      1 / 894069671630859375000 := by
  have h := log_inv_series_bound (1 / 25) (by norm_num) (by norm_num) 14
  have e1 : (1 : ℝ) / (1 - 1 / 25) = 25 / 24 := by norm_num
  have e2 : (∑ i ∈ Finset.range 14, (1 / 25 : ℝ) ^ (i + 1) / ((i : ℝ) + 1)) =
      (109602614829831857131873 : ℝ) / 2684891223907470703125000 := by
    norm_num [Finset.sum_range_succ]
  have e3 : (1 / 25 : ℝ) ^ (14 + 1) / (1 - 1 / 25) ≤ 1 / 894069671630859375000 := by norm_num
  rw [e1, e2] at h
  exact le_trans h e3

/-- Ten terms of the series of `ln(81/80) = -ln(1 - 1/81)`. -/
theorem log_81_80_near :
    |(42288075844252624909 : ℝ) / 3404146328535940064280 - Real.log (81 / 80)| ≤
      1 / 972613236724554304080 := by
  have h := log_inv_series_bound (1 / 81) (by norm_num) (by norm_num) 10
  have e1 : (1 : ℝ) / (1 - 1 / 81) = 81 / 80 := by norm_num
  have e2 : (∑ i ∈ Finset.range 10, (1 / 81 : ℝ) ^ (i + 1) / ((i : ℝ) + 1)) =
      (42288075844252624909 : ℝ) / 3404146328535940064280 := by
    norm_num [Finset.sum_range_succ]
  have e3 : (1 / 81 : ℝ) ^ (10 + 1) / (1 - 1 / 81) ≤ 1 / 972613236724554304080 := by norm_num
  rw [e1, e2] at h
  exact le_trans h e3

/-- `ln 10` lies within half a unit in the last place (`2^-52`) of the
`double` `2.302585092994046 = 2592480341699211 / 2^50`. -/
theorem log_ten_near :
    |Real.log 10 - (2592480341699211 : ℝ) / 1125899906842624| < 1 / 4503599627370496 := by
  have ha := abs_le.mp log_16_15_near
  have hb := abs_le.mp log_25_24_near
  have hc := abs_le.mp log_81_80_near
  rw [log_ten_eq, abs_lt]
  constructor <;> linarith [ha.1, ha.2, hb.1, hb.2, hc.1, hc.2]

/-- `ln 1000` lies within half a unit in the last place (`2^-51`) of the
`double` `6.907755278982137 = 243045032034301 / 2^45`. -/
theorem log_thousand_near :
    |Real.log 1000 - (243045032034301 : ℝ) / 35184372088832| < 1 / 2251799813685248 := by
  have e : Real.log 1000 = 3 * Real.log 10 := by
    rw [show (1000 : ℝ) = 10 ^ 3 by norm_num, Real.log_pow]
    norm_num
  have ha := abs_le.mp log_16_15_near
  have hb := abs_le.mp log_25_24_near
  have hc := abs_le.mp log_81_80_near
  rw [e, log_ten_eq, abs_lt]
  constructor <;> linarith [ha.1, ha.2, hb.1, hb.2, hc.1, hc.2]

theorem double_log_ten : double_log 10 = 2592480341699211 / 1125899906842624 := by
  have h := abs_lt.mp log_ten_near
  have hr := round_double_of_close (Real.log 10) 1 5184960683398422
    (by norm_num; linarith [h.1]) (by norm_num; linarith [h.2])
    (by
      rw [abs_lt]
      norm_num
      constructor <;> linarith [h.1, h.2])
  unfold double_log
  rw [hr]
  norm_num

theorem double_log_thousand : double_log 1000 = 243045032034301 / 35184372088832 := by
  have h := abs_lt.mp log_thousand_near
  have hr := round_double_of_close (Real.log 1000) 2 7777441025097632
    (by norm_num; linarith [h.1]) (by norm_num; linarith [h.2])
    (by
      rw [abs_lt]
      norm_num
      constructor <;> linarith [h.1, h.2])
  unfold double_log
  rw [hr]
  norm_num

/-- The quotient of the two `double`s rounds to `3 - 2^-51`, printed
`2.9999999999999996`. -/
theorem double_div_log_thousand_log_ten :
    double_div (243045032034301 / 35184372088832) (2592480341699211 / 1125899906842624) =
      6755399441055743 / 2251799813685248 := by
  have hr := round_double_of_close
    ((243045032034301 : ℚ) / 35184372088832 / (2592480341699211 / 1125899906842624))
    1 6755399441055743 (by norm_num) (by norm_num)
    (by
      rw [abs_lt]
      norm_num)
  unfold double_div
  rw [hr]
  norm_num

/-- C5 (the code at a failing input): for `n = 1000` the two logarithms are
the `double`s `6.907755278982137` and `2.302585092994046`, their quotient
rounds to `2.9999999999999996`, the cast gives `2`, and `main` stores
`target.digits = 3`, while `1000` has `4` decimal digits (and the formula in
exact arithmetic gives `4`). -/
theorem main_digits_thousand :
    main_digits 1000 = some 3 ∧ (Nat.digits 10 1000).length = 4 ∧
      digits_formula 1000 = 4 := by
  refine ⟨?_, by norm_num, ?_⟩
  · unfold main_digits
    rw [if_pos (by decide)]
    have hc : (((1000 : Int)) : ℝ) = 1000 := by norm_num
    rw [hc, double_log_thousand, double_log_ten, double_div_log_thousand_log_ten]
    have hcast : cast_int (6755399441055743 / 2251799813685248) = 2 := by
      unfold cast_int
      rw [if_pos (by norm_num), Int.floor_eq_iff]
      norm_num
    rw [hcast]
    rfl
  · rw [digits_formula_eq 1000 (by decide)]
    rw [show (1000 : Int).toNat = 1000 from rfl]
    norm_num

/-! ### `calc_U` against the closed form, at `n = 2^60`, `d = 3` -/

theorem log_three_bounds : 1 < Real.log 3 ∧ Real.log 3 < 1.387 := by
  refine ⟨one_lt_log_three, ?_⟩
  have h : Real.log 3 ≤ Real.log 4 := Real.log_le_log (by norm_num) (by norm_num)
  have := log_four_bounds.2
  linarith

theorem log_two_pow_sixty : Real.log ((1152921504606846976 : Int) : ℝ) = 60 * Real.log 2 := by
  rw [show (((1152921504606846976 : Int)) : ℝ) = (2 : ℝ) ^ 60 by norm_num, Real.log_pow]
  norm_num

theorem log_cube_root_two_pow_sixty :
    Real.log ((((1152921504606846976 : Int)) : ℝ) ^ ((1 : ℝ) / ((3 : Int) : ℝ))) =
      20 * Real.log 2 := by
  rw [log_rpow_inv_eq (by decide) 3, log_two_pow_sixty]
  push_cast
  ring

theorem log_twenty_log_two_bounds :
    2.079 < Real.log (20 * Real.log 2) ∧ Real.log (20 * Real.log 2) < 2.773 := by
  have h1 := Real.log_two_gt_d9
  have h2 := Real.log_two_lt_d9
  have e8 : Real.log 8 = 3 * Real.log 2 := by
    rw [show (8 : ℝ) = 2 ^ 3 by norm_num, Real.log_pow]
    norm_num
  have e16 : Real.log 16 = 4 * Real.log 2 := by
    rw [show (16 : ℝ) = 2 ^ 4 by norm_num, Real.log_pow]
    norm_num
  have hlo : Real.log 8 ≤ Real.log (20 * Real.log 2) :=
    Real.log_le_log (by norm_num) (by linarith)
  have hhi : Real.log (20 * Real.log 2) ≤ Real.log 16 :=
    Real.log_le_log (by linarith) (by linarith)
  constructor <;> linarith

theorem U_radicand_two_pow_sixty_bounds :
    0 ≤ U_radicand 1152921504606846976 3 ∧ U_radicand 1152921504606846976 3 ≤ 5.72 ^ 2 := by
  obtain ⟨ha1, ha2⟩ := log_three_bounds
  obtain ⟨hl1, hl2⟩ := log_twenty_log_two_bounds
  have e : U_radicand 1152921504606846976 3 =
      (3 * Real.log 3) * (3 * Real.log 3) +
        4 * Real.log 3 * Real.log (20 * Real.log 2) := by
    unfold U_radicand
    rw [log_cube_root_two_pow_sixty]
    push_cast
    ring
  rw [e]
  have haa : Real.log 3 * Real.log 3 ≤ 1.387 * 1.387 :=
    mul_le_mul ha2.le ha2.le (by linarith) (by norm_num)
  have hal : Real.log 3 * Real.log (20 * Real.log 2) ≤ 1.387 * 2.773 :=
    mul_le_mul ha2.le hl2.le (by linarith) (by norm_num)
  have hal0 : 0 ≤ Real.log 3 * Real.log (20 * Real.log 2) :=
    mul_nonneg (by linarith) (by linarith)
  have haa0 : 0 ≤ Real.log 3 * Real.log 3 := mul_nonneg (by linarith) (by linarith)
  constructor
  · nlinarith
  · have hnum : (9 : ℝ) * (1.387 * 1.387) + 4 * (1.387 * 2.773) ≤ 5.72 ^ 2 := by norm_num
    nlinarith

theorem log_256_bounds : 5.545 < Real.log 256 ∧ Real.log 256 < 5.546 := by
  have h1 := Real.log_two_gt_d9
  have h2 := Real.log_two_lt_d9
  have e : Real.log 256 = 8 * Real.log 2 := by
    rw [show (256 : ℝ) = 2 ^ 8 by norm_num, Real.log_pow]
    norm_num
  constructor <;> linarith

theorem exp_U_exponent_two_pow_sixty_lt :
    Real.exp (U_exponent 1152921504606846976 3) < 256 := by
  obtain ⟨hr0, hr1⟩ := U_radicand_two_pow_sixty_bounds
  obtain ⟨_, ha2⟩ := log_three_bounds
  have hs : Real.sqrt (U_radicand 1152921504606846976 3) ≤ 5.72 :=
    Real.sqrt_le_iff.mpr ⟨by norm_num, hr1⟩
  rw [← Real.lt_log_iff_exp_lt (by norm_num)]
  have := log_256_bounds.1
  unfold U_exponent
  push_cast
  linarith

theorem exp_U_closed_form_two_pow_sixty_ge :
    256 ≤ U_closed_form 1152921504606846976 3 := by
  obtain ⟨ha1, _⟩ := log_three_bounds
  obtain ⟨hl1, _⟩ := log_twenty_log_two_bounds
  have h2 := Real.log_two_gt_d9
  unfold U_closed_form
  rw [← Real.log_le_iff_le_exp (by norm_num), log_cube_root_two_pow_sixty]
  push_cast
  have hprod : (13.86 : ℝ) * 2.079 ≤ 20 * Real.log 2 * Real.log (20 * Real.log 2) :=
    mul_le_mul (by linarith) hl1.le (by norm_num) (by linarith)
  have hsq : (9 : ℝ) ≤ (3 * Real.log 3) ^ 2 := by nlinarith
  have hrad : (11 : ℝ) ^ 2 ≤ (3 * Real.log 3) ^ 2 +
      4 * (20 * Real.log 2) * Real.log (20 * Real.log 2) := by
    have hnum : (11 : ℝ) ^ 2 ≤ 9 + 4 * (13.86 * 2.079) := by norm_num
    nlinarith
  have hs : (11 : ℝ) ≤ Real.sqrt ((3 * Real.log 3) ^ 2 +
      4 * (20 * Real.log 2) * Real.log (20 * Real.log 2)) :=
    (Real.le_sqrt' (by norm_num)).mpr hrad
  have := log_256_bounds.2
  linarith

/-- C1 (the code at a failing input): for `n = 2^60 = 1152921504606846976`
and `d = 3` the code, whose `D` is `4 * lnd * lnlnn1d`, returns a value
below `256` (numerically `55`), while the integer part of the closed form, whose
term is `4 * ln(n^(1/d)) * ln ln(n^(1/d))`, is at least `256` (numerically
`2713`). -/
theorem calc_U_differs_from_closed_form :
    ∃ u : Int, calc_U 1152921504606846976 3 = some u ∧ u < 256 ∧
      256 ≤ ⌊U_closed_form 1152921504606846976 3⌋ ∧
      u ≠ ⌊U_closed_form 1152921504606846976 3⌋ := by
  have hlt : ⌊Real.exp (U_exponent 1152921504606846976 3)⌋ < 256 :=
    Int.floor_lt.mpr (by exact_mod_cast exp_U_exponent_two_pow_sixty_lt)
  have hcode := calc_U_of_radicand_nonneg (n := 1152921504606846976) (d := 3)
    (by decide) (by decide) U_radicand_two_pow_sixty_bounds.1
  rw [to_int_of_fits (floor_exp_nonneg _) (by omega)] at hcode
  have hge : (256 : Int) ≤ ⌊U_closed_form 1152921504606846976 3⌋ :=
    Int.le_floor.mpr (by exact_mod_cast exp_U_closed_form_two_pow_sixty_ge)
  exact ⟨_, hcode, hlt, hge, by omega⟩

/-! ### `calc_B` beyond the range of `int`, at `n = 2^384` -/

theorem four_le_two_pow_384 : 4 ≤ two_pow_384 := by
  unfold two_pow_384
  have h : (2 : Int) ^ 2 ≤ 2 ^ 384 := pow_le_pow_right₀ (by norm_num) (by norm_num)
  have e : (2 : Int) ^ 2 = 4 := by norm_num
  omega

theorem three_le_two_pow_384 : 3 ≤ two_pow_384 := by
  have := four_le_two_pow_384
  omega

theorem log_two_pow_384 :
    Real.log ((two_pow_384 : Int) : ℝ) = 384 * Real.log 2 := by
  unfold two_pow_384
  rw [Int.cast_pow, Real.log_pow]
  norm_num

theorem log_log_two_pow_384_bounds :
    5.583 ≤ Real.log (384 * Real.log 2) ∧ Real.log (384 * Real.log 2) ≤ 5.586 := by
  have h1 := Real.log_two_gt_d9
  have h2 := Real.log_two_lt_d9
  have hpos : (0 : ℝ) < 1.5 * Real.log 2 := by linarith
  have e : 384 * Real.log 2 = 256 * (1.5 * Real.log 2) := by ring
  have e256 : Real.log 256 = 8 * Real.log 2 := by
    rw [show (256 : ℝ) = 2 ^ 8 by norm_num, Real.log_pow]
    norm_num
  rw [e, Real.log_mul (by norm_num) (ne_of_gt hpos), e256]
  constructor
  · have hl := Real.one_sub_inv_le_log_of_pos hpos
    have hinv : (1.5 * Real.log 2)⁻¹ ≤ (1.0397 : ℝ)⁻¹ :=
      inv_anti₀ (by norm_num) (by linarith)
    have hnum : (1.0397 : ℝ)⁻¹ ≤ 0.9619 := by norm_num
    linarith
  · have hl := Real.log_le_sub_one_of_pos hpos
    linarith

theorem B_exponent_two_pow_384_bounds :
    19.45 ≤ B_exponent two_pow_384 ∧
      B_exponent two_pow_384 ≤ 19.49 := by
  have h1 := Real.log_two_gt_d9
  have h2 := Real.log_two_lt_d9
  obtain ⟨h3, h4⟩ := log_log_two_pow_384_bounds
  have hL0 : (0 : ℝ) ≤ 384 * Real.log 2 := by linarith
  have hA1 : (0.961 : ℝ) ≤ ((8 : ℝ) / 9) ^ ((1 : ℝ) / 3) :=
    le_rpow_one_third (by norm_num) (by norm_num)
  have hA2 : ((8 : ℝ) / 9) ^ ((1 : ℝ) / 3) ≤ 0.962 :=
    rpow_one_third_le (by norm_num) (by norm_num) (by norm_num)
  have hB1 : (6.432 : ℝ) ≤ (384 * Real.log 2) ^ ((1 : ℝ) / 3) :=
    le_rpow_one_third (by norm_num) (by norm_num; linarith)
  have hB2 : (384 * Real.log 2) ^ ((1 : ℝ) / 3) ≤ 6.433 :=
    rpow_one_third_le hL0 (by norm_num) (by norm_num; linarith)
  have hC1 : (3.147 : ℝ) ≤ (Real.log (384 * Real.log 2)) ^ ((2 : ℝ) / 3) := by
    refine le_rpow_two_thirds (by linarith) (by norm_num) ?_
    have : (5.583 : ℝ) ^ 2 ≤ (Real.log (384 * Real.log 2)) ^ 2 :=
      pow_le_pow_left₀ (by norm_num) h3 2
    have h5 : (3.147 : ℝ) ^ 3 ≤ (5.583 : ℝ) ^ 2 := by norm_num
    linarith
  have hC2 : (Real.log (384 * Real.log 2)) ^ ((2 : ℝ) / 3) ≤ 3.149 := by
    refine rpow_two_thirds_le (by linarith) (by norm_num) ?_
    have : (Real.log (384 * Real.log 2)) ^ 2 ≤ (5.586 : ℝ) ^ 2 :=
      pow_le_pow_left₀ (by linarith) h4 2
    have h5 : (5.586 : ℝ) ^ 2 ≤ (3.149 : ℝ) ^ 3 := by norm_num
    linarith
  have e : B_exponent two_pow_384 =
      ((8 : ℝ) / 9) ^ ((1 : ℝ) / 3) * (384 * Real.log 2) ^ ((1 : ℝ) / 3) *
        (Real.log (384 * Real.log 2)) ^ ((2 : ℝ) / 3) := by
    unfold B_exponent
    rw [log_two_pow_384]
  rw [e]
  constructor
  · have hAB : (0.961 : ℝ) * 6.432 ≤
        ((8 : ℝ) / 9) ^ ((1 : ℝ) / 3) * (384 * Real.log 2) ^ ((1 : ℝ) / 3) :=
      mul_le_mul hA1 hB1 (by norm_num) (by linarith)
    have hABC : (0.961 : ℝ) * 6.432 * 3.147 ≤
        ((8 : ℝ) / 9) ^ ((1 : ℝ) / 3) * (384 * Real.log 2) ^ ((1 : ℝ) / 3) *
          (Real.log (384 * Real.log 2)) ^ ((2 : ℝ) / 3) :=
      mul_le_mul hAB hC1 (by norm_num) (by nlinarith)
    have : (19.45 : ℝ) ≤ 0.961 * 6.432 * 3.147 := by norm_num
    linarith
  · have hAB : ((8 : ℝ) / 9) ^ ((1 : ℝ) / 3) * (384 * Real.log 2) ^ ((1 : ℝ) / 3) ≤
        0.962 * 6.433 :=
      mul_le_mul hA2 hB2 (by linarith) (by norm_num)
    have hABC : ((8 : ℝ) / 9) ^ ((1 : ℝ) / 3) * (384 * Real.log 2) ^ ((1 : ℝ) / 3) *
          (Real.log (384 * Real.log 2)) ^ ((2 : ℝ) / 3) ≤ 0.962 * 6.433 * 3.149 :=
      mul_le_mul hAB hC2 (by linarith) (by norm_num)
    have : (0.962 : ℝ) * 6.433 * 3.149 ≤ 19.49 := by norm_num
    linarith

/-- At `n = 2^384` the value `exp(A * B * C)` lies between `2^28` and
`1.6 * 2^28`, so ten times its integer part lies between `2^31` and `2^32`. -/
theorem floor_B_closed_form_two_pow_384 :
    268435456 ≤ ⌊B_closed_form two_pow_384 / 10⌋ ∧
      ⌊B_closed_form two_pow_384 / 10⌋ < 429496730 := by
  obtain ⟨hx1, hx2⟩ := B_exponent_two_pow_384_bounds
  have h1 := Real.log_two_gt_d9
  have h2 := Real.log_two_lt_d9
  have e28 : Real.log 268435456 = 28 * Real.log 2 := by
    rw [show (268435456 : ℝ) = 2 ^ 28 by norm_num, Real.log_pow]
    norm_num
  have hlo : (268435456 : ℝ) ≤ Real.exp (B_exponent two_pow_384) := by
    rw [← Real.log_le_iff_le_exp (by norm_num), e28]
    linarith
  have hhi : Real.exp (B_exponent two_pow_384) < 429496729.6 := by
    rw [← Real.lt_log_iff_exp_lt (by norm_num)]
    have e : (429496729.6 : ℝ) = 268435456 * 1.6 := by norm_num
    rw [e, Real.log_mul (by norm_num) (by norm_num), e28]
    have hl := Real.one_sub_inv_le_log_of_pos (show (0 : ℝ) < 1.6 by norm_num)
    have hnum : (1 : ℝ) - (1.6 : ℝ)⁻¹ = 0.375 := by norm_num
    linarith
  rw [B_closed_form_div_ten]
  constructor
  · exact Int.le_floor.mpr (by exact_mod_cast hlo)
  · rw [Int.floor_lt]
    push_cast
    linarith

theorem calc_B_two_pow_384_neg :
    ∃ b2 : Int, calc_B two_pow_384 = some b2 ∧ b2 < 0 := by
  obtain ⟨hk1, hk2⟩ := floor_B_closed_form_two_pow_384
  rw [B_closed_form_div_ten] at hk1 hk2
  refine ⟨_, calc_B_eq three_le_two_pow_384, ?_⟩
  rw [to_int_of_fits (by omega) (by omega),
    wrap32_of_range_above _ (by omega) (by omega)]
  omega

/-- C3 (the claim as stated fails): with `n1 = 4` and `n2 = 2^384` (116
digits) the code returns `10` for `n1`, while for `n2` the product
`10 * to_int(exp(19.46...))` is at least `2^31`, beyond the range of `int`,
and the `int` the code returns is negative. -/
theorem calc_B_overflow_not_mono :
    4 ≤ two_pow_384 ∧
      calc_B 4 = some 10 ∧
      2147483648 ≤ 10 * ⌊B_closed_form two_pow_384 / 10⌋ ∧
      (∃ b2 : Int, calc_B two_pow_384 = some b2 ∧ b2 < 0) ∧
      ¬ ∃ b1 b2 : Int, calc_B 4 = some b1 ∧ calc_B two_pow_384 = some b2 ∧ b1 ≤ b2 := by
  obtain ⟨hk1, _⟩ := floor_B_closed_form_two_pow_384
  obtain ⟨c, hc, hneg⟩ := calc_B_two_pow_384_neg
  refine ⟨four_le_two_pow_384, calc_B_four, by omega, ⟨c, hc, hneg⟩, ?_⟩
  rintro ⟨b1, b2, hb1, hb2, hle⟩
  rw [calc_B_four] at hb1
  rw [hc] at hb2
  simp only [Option.some.injEq] at hb1 hb2
  omega

end GNFS
